import Mathlib

/-!
Shallow embedding of the bin-packing engine `pack_items` from
`ai_agent_tutorials/ULIP/Container Planning/Containerplanning.py`,
together with proofs of the specified properties.

Python floats are modelled as rationals, item dictionaries as records whose
optional `volume` field models the derived dictionary key attached by the
engine, and the in-place mutation of the caller's item list is modelled by
explicit state passing: the result record carries the final state of the
item list alongside the returned pair.
-/

/-- An item record as supplied to `pack_items`: the keys
`id`, `length`, `width`, `height`, `weight`, and the optional derived
`volume` key (absent, i.e. `none`, in a fresh caller-supplied record;
the engine attaches it). -/
structure Item where
  id : Nat
  length : ℚ
  width : ℚ
  height : ℚ
  weight : ℚ
  volume : Option ℚ
deriving DecidableEq

/-- Reading the derived `volume` key of an item record
(the engine only reads it after attaching it). -/
def Item.vol (item : Item) : ℚ :=
  item.volume.getD 0

/-- The mutation `item['volume'] = item['length'] * item['width'] * item['height']`
performed by `pack_items` on each caller-supplied item record. -/
def setVolume (item : Item) : Item :=
  { item with volume := some (item.length * item.width * item.height) }

/-- The unfit test of `pack_items`: some dimension of the item strictly
exceeds the corresponding container dimension
(`item['length'] > L_c or item['width'] > W_c or item['height'] > H_c`). -/
def unfitB (L_c W_c H_c : ℚ) (item : Item) : Bool :=
  decide (L_c < item.length) || decide (W_c < item.width) || decide (H_c < item.height)

/-- A container dictionary as built by `pack_items`. -/
structure Container where
  id : Nat
  items : List Nat
  current_volume : ℚ
  current_weight : ℚ
  volume_capacity : ℚ
  weight_capacity : ℚ
deriving DecidableEq

/-- Appending an item (id, volume, weight) to a container and bumping its
running totals, as done in the placement loop of `pack_items`. -/
def pushItem (c : Container) (itemId : Nat) (v w : ℚ) : Container :=
  { c with
    items := c.items ++ [itemId]
    current_volume := c.current_volume + v
    current_weight := c.current_weight + w }

/-- The inner `for container in containers` scan of `pack_items`: place the
item into the first container (in creation order) whose running volume plus
the item volume stays within `volume_capacity` and whose running weight plus
the item weight stays within `W_max`; `none` when no container qualifies. -/
def tryPlace (volume_capacity W_max : ℚ) (item : Item) :
    List Container → Option (List Container)
  | [] => none
  | c :: cs =>
    if c.current_volume + item.vol ≤ volume_capacity ∧
        c.current_weight + item.weight ≤ W_max then
      some (pushItem c item.id item.vol item.weight :: cs)
    else
      (tryPlace volume_capacity W_max item cs).map (fun cs2 => c :: cs2)

/-- The fresh container built by `pack_items` when no open container accepts
the item: id `len(containers) + 1`, the single item id, running totals set to
the item's volume and weight, and the run's capacities copied in. -/
def newContainer (n : Nat) (item : Item) (volume_capacity W_max : ℚ) : Container :=
  ⟨n, [item.id], item.vol, item.weight, volume_capacity, W_max⟩

/-- One iteration of the outer placement loop of `pack_items`: try to place
the item into an open container, and otherwise append a fresh container. -/
def addItem (volume_capacity W_max : ℚ) (containers : List Container) (item : Item) :
    List Container :=
  match tryPlace volume_capacity W_max item containers with
  | some updated => updated
  | none => containers ++ [newContainer (containers.length + 1) item volume_capacity W_max]

/-- The comparison used by `sorted(items, key=lambda x: x['volume'], reverse=True)`:
`a` may come before `b` when the volume key of `b` is at most that of `a`. -/
def itemLE (a b : Item) : Prop :=
  b.vol ≤ a.vol

instance : DecidableRel itemLE :=
  fun a b => inferInstanceAs (Decidable (b.vol ≤ a.vol))

instance : IsTotal Item itemLE :=
  ⟨fun a b => le_total b.vol a.vol⟩

instance : IsTrans Item itemLE :=
  ⟨fun _ _ _ hab hbc => le_trans hbc hab⟩

/-- `sorted(items, key=lambda x: x['volume'], reverse=True)`: Python's sort is
stable, so it is modelled by a stable sort (insertion sort) under the
descending-volume comparison. -/
def sortItems (items : List Item) : List Item :=
  List.insertionSort itemLE items

/-- The value returned by `pack_items`, with the final state of the
caller-supplied item list (which the function mutates in place) passed back
explicitly as `items_state`. -/
structure PackResult where
  containers : Option (List Container)
  unfit_items : List Item
  items_state : List Item
deriving DecidableEq

/-- The function `pack_items(L_c, W_c, H_c, W_max, items)`: attach the
derived volume to every item, collect the per-axis unfit items and fail fast
when there are any, and otherwise run first-fit-decreasing placement over the
items sorted by descending volume. -/
def pack_items (L_c W_c H_c W_max : ℚ) (items0 : List Item) : PackResult :=
  if (items0.map setVolume).filter (unfitB L_c W_c H_c) ≠ [] then
    ⟨none, (items0.map setVolume).filter (unfitB L_c W_c H_c), items0.map setVolume⟩
  else
    ⟨some ((sortItems (items0.map setVolume)).foldl (addItem (L_c * W_c * H_c) W_max) []),
      [], items0.map setVolume⟩

/-! ### Definitions following the specification's wording

These are used only to compare the source function against the spec's
description of the algorithm (refinement); they are written from the spec's
words in section 4.1, not from the source. -/

/-- Derived volume of an item per the spec's data model:
length times width times height. -/
def specVolume (item : Item) : ℚ :=
  item.length * item.width * item.height

/-- The spec's decreasing-size ordering on items: descending derived volume. -/
def specLE (a b : Item) : Prop :=
  specVolume b ≤ specVolume a

instance : DecidableRel specLE :=
  fun a b => inferInstanceAs (Decidable (specVolume b ≤ specVolume a))

instance : IsTotal Item specLE :=
  ⟨fun a b => le_total (specVolume b) (specVolume a)⟩

instance : IsTrans Item specLE :=
  ⟨fun _ _ _ hab hbc => le_trans hbc hab⟩

/-- Spec step 3: a stable sort of the full item set by descending volume. -/
def specSort (items : List Item) : List Item :=
  List.insertionSort specLE items

/-- Spec step 4, inner scan: scan open containers in creation order and place
the item in the first one for which running volume plus item volume is at
most the volume capacity and running weight plus item weight is at most the
weight capacity (both inclusive). -/
def specScan (volumeCapacity weightCapacity : ℚ) (item : Item) :
    List Container → Option (List Container)
  | [] => none
  | c :: cs =>
    if c.current_volume + specVolume item ≤ volumeCapacity ∧
        c.current_weight + item.weight ≤ weightCapacity then
      some (pushItem c item.id (specVolume item) item.weight :: cs)
    else
      (specScan volumeCapacity weightCapacity item cs).map (fun cs2 => c :: cs2)

/-- Spec step 4, outer step: place the item in the first qualifying open
container, and if none qualifies open a new container for it (next sequential
id) and append it to the end of the open-container list. -/
def specStep (volumeCapacity weightCapacity : ℚ) (containers : List Container)
    (item : Item) : List Container :=
  match specScan volumeCapacity weightCapacity item containers with
  | some updated => updated
  | none =>
    containers ++
      [⟨containers.length + 1, [item.id], specVolume item, item.weight,
        volumeCapacity, weightCapacity⟩]

/-- The spec's description of the packing phase (steps 3 to 5) for a batch
with no unfit items: first-fit placement over the items in decreasing-volume
order. -/
def packSpec (L_c W_c H_c W_max : ℚ) (items : List Item) : List Container :=
  (specSort items).foldl (specStep (L_c * W_c * H_c) W_max) []

/-! ### Basic facts about the embedding -/

theorem vol_setVolume (item : Item) : (setVolume item).vol = specVolume item :=
  rfl

theorem weight_setVolume (item : Item) : (setVolume item).weight = item.weight :=
  rfl

theorem id_setVolume (item : Item) : (setVolume item).id = item.id :=
  rfl

theorem pack_items_of_unfit (L_c W_c H_c W_max : ℚ) (items0 : List Item)
    (h : (items0.map setVolume).filter (unfitB L_c W_c H_c) ≠ []) :
    pack_items L_c W_c H_c W_max items0 =
      ⟨none, (items0.map setVolume).filter (unfitB L_c W_c H_c), items0.map setVolume⟩ := by
  unfold pack_items
  rw [if_pos h]

theorem pack_items_of_fit (L_c W_c H_c W_max : ℚ) (items0 : List Item)
    (h : (items0.map setVolume).filter (unfitB L_c W_c H_c) = []) :
    pack_items L_c W_c H_c W_max items0 =
      ⟨some ((sortItems (items0.map setVolume)).foldl (addItem (L_c * W_c * H_c) W_max) []),
        [], items0.map setVolume⟩ := by
  unfold pack_items
  rw [if_neg (fun hne => hne h)]

theorem filter_unfit_map_setVolume (L_c W_c H_c : ℚ) (items0 : List Item) :
    (items0.map setVolume).filter (unfitB L_c W_c H_c) =
      (items0.filter (unfitB L_c W_c H_c)).map setVolume := by
  rw [List.filter_map]
  congr 1

theorem addItem_of_some {volume_capacity W_max : ℚ} {item : Item}
    {cs cs2 : List Container} (h : tryPlace volume_capacity W_max item cs = some cs2) :
    addItem volume_capacity W_max cs item = cs2 := by
  unfold addItem
  rw [h]

theorem addItem_of_none {volume_capacity W_max : ℚ} {item : Item}
    {cs : List Container} (h : tryPlace volume_capacity W_max item cs = none) :
    addItem volume_capacity W_max cs item =
      cs ++ [newContainer (cs.length + 1) item volume_capacity W_max] := by
  unfold addItem
  rw [h]

/-- The inner scan only touches the `items` list and the running totals of
one container: ids and capacity fields are unchanged positionwise. -/
theorem tryPlace_fields (volume_capacity W_max : ℚ) (item : Item) :
    ∀ cs cs2, tryPlace volume_capacity W_max item cs = some cs2 →
      cs2.map Container.id = cs.map Container.id ∧
      cs2.map Container.volume_capacity = cs.map Container.volume_capacity ∧
      cs2.map Container.weight_capacity = cs.map Container.weight_capacity := by
  intro cs
  induction cs with
  | nil => intro cs2 h; simp [tryPlace] at h
  | cons c cs ih =>
    intro cs2 h
    rw [tryPlace] at h
    split at h
    · obtain rfl := Option.some.inj h
      simp [pushItem]
    · simp only [Option.map_eq_some'] at h
      obtain ⟨cs2', h1, rfl⟩ := h
      obtain ⟨e1, e2, e3⟩ := ih cs2' h1
      simp [e1, e2, e3]

theorem tryPlace_length {volume_capacity W_max : ℚ} {item : Item}
    {cs cs2 : List Container} (h : tryPlace volume_capacity W_max item cs = some cs2) :
    cs2.length = cs.length := by
  have := (tryPlace_fields volume_capacity W_max item cs cs2 h).1
  simpa using congrArg List.length this

/-! ### Capacity bounds -/

/-- Both running totals are within the run's capacities, and the container's
capacity fields are the run's capacities. -/
def BoundOK (volume_capacity W_max : ℚ) (c : Container) : Prop :=
  c.current_volume ≤ volume_capacity ∧ c.current_weight ≤ W_max ∧
    c.volume_capacity = volume_capacity ∧ c.weight_capacity = W_max

theorem tryPlace_boundOK (volume_capacity W_max : ℚ) (item : Item) :
    ∀ cs cs2, (∀ c ∈ cs, BoundOK volume_capacity W_max c) →
      tryPlace volume_capacity W_max item cs = some cs2 →
      ∀ c ∈ cs2, BoundOK volume_capacity W_max c := by
  intro cs
  induction cs with
  | nil => intro cs2 _ h; simp [tryPlace] at h
  | cons c cs ih =>
    intro cs2 hall h
    rw [tryPlace] at h
    split at h
    case isTrue hcond =>
      obtain rfl := Option.some.inj h
      intro c2 hc2
      rcases List.mem_cons.mp hc2 with rfl | hmem
      · obtain ⟨-, -, e1, e2⟩ := hall c (List.mem_cons_self c cs)
        exact ⟨hcond.1, hcond.2, by simp [pushItem, e1], by simp [pushItem, e2]⟩
      · exact hall c2 (List.mem_cons_of_mem c hmem)
    case isFalse hcond =>
      simp only [Option.map_eq_some'] at h
      obtain ⟨cs2', h1, rfl⟩ := h
      intro c2 hc2
      rcases List.mem_cons.mp hc2 with rfl | hmem
      · exact hall c2 (List.mem_cons_self c2 cs)
      · exact ih cs2' (fun x hx => hall x (List.mem_cons_of_mem c hx)) h1 c2 hmem

theorem addItem_boundOK (volume_capacity W_max : ℚ) (item : Item) (cs : List Container)
    (hall : ∀ c ∈ cs, BoundOK volume_capacity W_max c)
    (hv : item.vol ≤ volume_capacity) (hw : item.weight ≤ W_max) :
    ∀ c ∈ addItem volume_capacity W_max cs item, BoundOK volume_capacity W_max c := by
  cases htp : tryPlace volume_capacity W_max item cs with
  | some cs2 =>
    rw [addItem_of_some htp]
    exact tryPlace_boundOK volume_capacity W_max item cs cs2 hall htp
  | none =>
    rw [addItem_of_none htp]
    intro c hc
    rcases List.mem_append.mp hc with hmem | hmem
    · exact hall c hmem
    · obtain rfl := List.mem_singleton.mp hmem
      exact ⟨hv, hw, rfl, rfl⟩

theorem foldl_boundOK (volume_capacity W_max : ℚ) :
    ∀ (l : List Item) (cs : List Container),
      (∀ it ∈ l, it.vol ≤ volume_capacity ∧ it.weight ≤ W_max) →
      (∀ c ∈ cs, BoundOK volume_capacity W_max c) →
      ∀ c ∈ l.foldl (addItem volume_capacity W_max) cs, BoundOK volume_capacity W_max c := by
  intro l
  induction l with
  | nil => intro cs _ hcs; simpa using hcs
  | cons it l ih =>
    intro cs hl hcs
    rw [List.foldl_cons]
    exact ih (addItem volume_capacity W_max cs it)
      (fun x hx => hl x (List.mem_cons_of_mem it hx))
      (addItem_boundOK volume_capacity W_max it cs hcs
        (hl it (List.mem_cons_self it l)).1 (hl it (List.mem_cons_self it l)).2)

theorem vol_le_capacity {a b c L W H : ℚ} (h1 : 0 ≤ a) (h2 : 0 ≤ b) (h3 : 0 ≤ c)
    (hl : a ≤ L) (hw : b ≤ W) (hh : c ≤ H) : a * b * c ≤ L * W * H := by
  have hL : 0 ≤ L := le_trans h1 hl
  have hW : 0 ≤ W := le_trans h2 hw
  exact mul_le_mul (mul_le_mul hl hw h2 hL) hh h3 (mul_nonneg hL hW)

/-- An item that passed the per-axis fit test has each dimension within the
container's. -/
theorem fit_of_filter_eq_nil {L_c W_c H_c : ℚ} {items0 : List Item}
    (h : (items0.map setVolume).filter (unfitB L_c W_c H_c) = []) :
    ∀ it ∈ items0, it.length ≤ L_c ∧ it.width ≤ W_c ∧ it.height ≤ H_c := by
  intro it hit
  have := List.filter_eq_nil_iff.mp h (setVolume it) (List.mem_map_of_mem setVolume hit)
  have h2 := this
  simp only [unfitB, setVolume, Bool.or_eq_true, decide_eq_true_eq, not_or, not_lt] at h2
  exact ⟨h2.1.1, h2.1.2, h2.2⟩

/-! ### Container contents -/

/-- The container's id list, running volume and running weight are the ids,
total volume and total weight of the (nonempty) list of items assigned to
it, in assignment order. -/
def ContainerHolds (c : Container) (assigned : List Item) : Prop :=
  c.items = assigned.map Item.id ∧
  c.current_volume = (assigned.map Item.vol).sum ∧
  c.current_weight = (assigned.map Item.weight).sum ∧
  assigned ≠ []

theorem pushItem_holds {c : Container} {p : List Item} (item : Item)
    (h : ContainerHolds c p) :
    ContainerHolds (pushItem c item.id item.vol item.weight) (p ++ [item]) := by
  obtain ⟨h1, h2, h3, _⟩ := h
  exact ⟨by simp [pushItem, h1], by simp [pushItem, h2], by simp [pushItem, h3], by simp⟩

theorem tryPlace_holds (volume_capacity W_max : ℚ) (item : Item) :
    ∀ {cs : List Container} {parts : List (List Item)},
      List.Forall₂ ContainerHolds cs parts →
      ∀ cs2, tryPlace volume_capacity W_max item cs = some cs2 →
        ∃ parts2, List.Forall₂ ContainerHolds cs2 parts2 ∧
          parts2.flatten.Perm (item :: parts.flatten) := by
  intro cs parts hf
  induction hf with
  | nil => intro cs2 h; simp [tryPlace] at h
  | cons hcp htail ih =>
    rename_i c p cs ps
    intro cs2 h
    rw [tryPlace] at h
    split at h
    case isTrue hcond =>
      obtain rfl := Option.some.inj h
      refine ⟨(p ++ [item]) :: ps, List.Forall₂.cons (pushItem_holds item hcp) htail, ?_⟩
      simp only [List.flatten_cons, List.append_assoc, List.singleton_append]
      exact List.perm_middle
    case isFalse hcond =>
      simp only [Option.map_eq_some'] at h
      obtain ⟨cs2', h1, rfl⟩ := h
      obtain ⟨parts2', hf2, hperm⟩ := ih cs2' h1
      refine ⟨p :: parts2', List.Forall₂.cons hcp hf2, ?_⟩
      simp only [List.flatten_cons]
      exact (hperm.append_left p).trans List.perm_middle

theorem addItem_holds (volume_capacity W_max : ℚ) (item : Item)
    {cs : List Container} {parts : List (List Item)}
    (hf : List.Forall₂ ContainerHolds cs parts) :
    ∃ parts2, List.Forall₂ ContainerHolds (addItem volume_capacity W_max cs item) parts2 ∧
      parts2.flatten.Perm (item :: parts.flatten) := by
  cases htp : tryPlace volume_capacity W_max item cs with
  | some cs2 =>
    rw [addItem_of_some htp]
    exact tryPlace_holds volume_capacity W_max item hf cs2 htp
  | none =>
    rw [addItem_of_none htp]
    refine ⟨parts ++ [[item]], ?_, ?_⟩
    · refine List.rel_append hf (List.Forall₂.cons ?_ List.Forall₂.nil)
      exact ⟨rfl, by simp [newContainer], by simp [newContainer], by simp⟩
    · simp only [List.flatten_append, List.flatten_cons, List.flatten_nil, List.append_nil]
      exact List.perm_append_singleton item parts.flatten

theorem foldl_holds (volume_capacity W_max : ℚ) :
    ∀ (l : List Item) {cs : List Container} {parts : List (List Item)},
      List.Forall₂ ContainerHolds cs parts →
      ∃ parts2,
        List.Forall₂ ContainerHolds (l.foldl (addItem volume_capacity W_max) cs) parts2 ∧
        parts2.flatten.Perm (parts.flatten ++ l) := by
  intro l
  induction l with
  | nil => intro cs parts hf; exact ⟨parts, hf, by simp⟩
  | cons it l ih =>
    intro cs parts hf
    rw [List.foldl_cons]
    obtain ⟨parts1, hf1, hp1⟩ := addItem_holds volume_capacity W_max it hf
    obtain ⟨parts2, hf2, hp2⟩ := ih hf1
    refine ⟨parts2, hf2, ?_⟩
    exact hp2.trans ((hp1.append_right l).trans List.perm_middle.symm)

/-- Every successful run satisfies the contents relation: the containers
partition (as a multiset) the volume-annotated input items. -/
theorem pack_items_holds {L_c W_c H_c W_max : ℚ} {items0 : List Item} {cs : List Container}
    (hres : (pack_items L_c W_c H_c W_max items0).containers = some cs) :
    ∃ parts, List.Forall₂ ContainerHolds cs parts ∧
      parts.flatten.Perm (items0.map setVolume) := by
  by_cases hfil : (items0.map setVolume).filter (unfitB L_c W_c H_c) = []
  · rw [pack_items_of_fit L_c W_c H_c W_max items0 hfil] at hres
    obtain rfl := Option.some.inj hres
    obtain ⟨parts, hf, hp⟩ :=
      foldl_holds (L_c * W_c * H_c) W_max (sortItems (items0.map setVolume)) List.Forall₂.nil
    refine ⟨parts, hf, ?_⟩
    exact hp.trans (List.perm_insertionSort itemLE (items0.map setVolume))
  · rw [pack_items_of_unfit L_c W_c H_c W_max items0 hfil] at hres
    simp at hres

/-! ### Container ids -/

theorem addItem_ids (volume_capacity W_max : ℚ) (item : Item) (cs : List Container)
    (h : cs.map Container.id = List.range' 1 cs.length) :
    (addItem volume_capacity W_max cs item).map Container.id =
      List.range' 1 (addItem volume_capacity W_max cs item).length := by
  cases htp : tryPlace volume_capacity W_max item cs with
  | some cs2 =>
    rw [addItem_of_some htp, (tryPlace_fields volume_capacity W_max item cs cs2 htp).1,
      tryPlace_length htp, h]
  | none =>
    rw [addItem_of_none htp]
    simp only [List.map_append, List.length_append, h, newContainer, List.map_cons,
      List.map_nil, List.length_cons, List.length_nil]
    rw [List.range'_1_concat]
    simp [Nat.add_comm]

theorem foldl_ids (volume_capacity W_max : ℚ) :
    ∀ (l : List Item) (cs : List Container),
      cs.map Container.id = List.range' 1 cs.length →
      (l.foldl (addItem volume_capacity W_max) cs).map Container.id =
        List.range' 1 (l.foldl (addItem volume_capacity W_max) cs).length := by
  intro l
  induction l with
  | nil => intro cs h; simpa using h
  | cons it l ih =>
    intro cs h
    rw [List.foldl_cons]
    exact ih (addItem volume_capacity W_max cs it) (addItem_ids volume_capacity W_max it cs h)

/-! ### Small list facts -/

theorem forall₂_mem_left {R : Container → List Item → Prop} :
    ∀ {cs : List Container} {parts : List (List Item)} {c : Container},
      List.Forall₂ R cs parts → c ∈ cs → ∃ p ∈ parts, R c p := by
  intro cs parts c hf
  induction hf with
  | nil => intro h; simp at h
  | cons hcp htail ih =>
    rename_i a b l₁ l₂
    intro h
    rcases List.mem_cons.mp h with rfl | hmem
    · exact ⟨b, List.mem_cons_self b l₂, hcp⟩
    · obtain ⟨p, hp, hr⟩ := ih hmem
      exact ⟨p, List.mem_cons_of_mem b hp, hr⟩

theorem forall₂_map_items :
    ∀ {cs : List Container} {parts : List (List Item)},
      List.Forall₂ ContainerHolds cs parts →
      cs.map Container.items = parts.map (fun p => p.map Item.id) := by
  intro cs parts hf
  induction hf with
  | nil => rfl
  | cons hcp htail ih => simp [hcp.1, ih]

theorem sublist_flatten_of_mem :
    ∀ {p : List Item} {parts : List (List Item)}, p ∈ parts → p.Sublist parts.flatten := by
  intro p parts
  induction parts with
  | nil => intro h; simp at h
  | cons q parts ih =>
    intro h
    rcases List.mem_cons.mp h with rfl | hmem
    · simp only [List.flatten_cons]
      exact List.sublist_append_left p parts.flatten
    · refine (ih hmem).trans ?_
      simp only [List.flatten_cons]
      exact List.sublist_append_right q parts.flatten

/-! ### The source placement loop coincides with the spec's description -/

theorem tryPlace_eq_specScan (volume_capacity W_max : ℚ) (item : Item) :
    ∀ cs, tryPlace volume_capacity W_max (setVolume item) cs =
      specScan volume_capacity W_max item cs := by
  intro cs
  induction cs with
  | nil => rfl
  | cons c cs ih =>
    rw [tryPlace, specScan]
    simp only [vol_setVolume, weight_setVolume, id_setVolume, ih]

theorem addItem_eq_specStep (volume_capacity W_max : ℚ) (item : Item) (cs : List Container) :
    addItem volume_capacity W_max cs (setVolume item) = specStep volume_capacity W_max cs item := by
  unfold addItem specStep
  rw [tryPlace_eq_specScan]
  rfl

theorem foldl_addItem_eq_specStep (volume_capacity W_max : ℚ) :
    ∀ (l : List Item) (cs : List Container),
      (l.map setVolume).foldl (addItem volume_capacity W_max) cs =
        l.foldl (specStep volume_capacity W_max) cs := by
  intro l
  induction l with
  | nil => intro cs; rfl
  | cons it l ih =>
    intro cs
    rw [List.map_cons, List.foldl_cons, List.foldl_cons, addItem_eq_specStep, ih]

theorem sortItems_map_setVolume (items0 : List Item) :
    sortItems (items0.map setVolume) = (specSort items0).map setVolume := by
  unfold sortItems specSort
  exact (List.map_insertionSort specLE itemLE setVolume items0
    (fun a _ b _ => Iff.rfl)).symm

/-! ### Claims -/

/-- Claim C8: on the container 10 x 10 x 10 with weight capacity 100 and
items A(2,3,4, weight 10), B(5,5,5, weight 20), C(3,3,3, weight 15) given in
order A, B, C (ids 1, 2, 3), pack_items returns exactly one container whose
ordered item-id list is [B, C, A] (= [2, 3, 1]) and an empty unfit list. -/
theorem pack_items_example_run :
    (pack_items 10 10 10 100
        [⟨1,2,3,4,10,none⟩, ⟨2,5,5,5,20,none⟩, ⟨3,3,3,3,15,none⟩]).containers =
      some [⟨1, [2, 3, 1], 176, 45, 1000, 100⟩] ∧
    (pack_items 10 10 10 100
        [⟨1,2,3,4,10,none⟩, ⟨2,5,5,5,20,none⟩, ⟨3,3,3,3,15,none⟩]).unfit_items = [] := by
  norm_num [pack_items, sortItems, List.insertionSort, List.orderedInsert, itemLE,
    Item.vol, setVolume, unfitB, addItem, tryPlace, pushItem, newContainer]

/-- Claim C1 counterexample: the claim is false as stated. On container
10 x 10 x 10 with weight capacity 5 and the single fit item of weight 10, no
open container accepts the item, and the freshly opened container is created
without any capacity check: its running weight 10 exceeds its weight
capacity 5. -/
theorem pack_items_capacity_counterexample :
    ∃ cs, (pack_items 10 10 10 5 [⟨1,1,1,1,10,none⟩]).containers = some cs ∧
      ¬ ∀ c ∈ cs, c.current_volume ≤ c.volume_capacity ∧
          c.current_weight ≤ c.weight_capacity := by
  refine ⟨[⟨1, [1], 1, 10, 1000, 5⟩], ?_, ?_⟩
  · norm_num [pack_items, sortItems, List.insertionSort, List.orderedInsert, itemLE,
      Item.vol, setVolume, unfitB, addItem, tryPlace, pushItem, newContainer]
  · intro hall
    have h10 := (hall _ (List.mem_singleton_self _)).2
    norm_num at h10

/-- Claim C1 (amended): if every submitted item has nonnegative dimensions
and weight at most the weight capacity, then every container returned by
pack_items has running volume at most its volume capacity and running weight
at most its weight capacity (also the containers freshly opened for an item
no existing container could accept). -/
theorem pack_items_capacity (L_c W_c H_c W_max : ℚ) (items0 : List Item)
    (cs : List Container)
    (hdims : ∀ it ∈ items0, 0 ≤ it.length ∧ 0 ≤ it.width ∧ 0 ≤ it.height)
    (hwt : ∀ it ∈ items0, it.weight ≤ W_max)
    (hres : (pack_items L_c W_c H_c W_max items0).containers = some cs) :
    ∀ c ∈ cs, c.current_volume ≤ c.volume_capacity ∧
      c.current_weight ≤ c.weight_capacity := by
  by_cases hfil : (items0.map setVolume).filter (unfitB L_c W_c H_c) = []
  · rw [pack_items_of_fit L_c W_c H_c W_max items0 hfil] at hres
    obtain rfl := Option.some.inj hres
    have hfit := fit_of_filter_eq_nil hfil
    have hitems : ∀ it ∈ sortItems (items0.map setVolume),
        it.vol ≤ L_c * W_c * H_c ∧ it.weight ≤ W_max := by
      intro it hit
      have hmem : it ∈ items0.map setVolume :=
        (List.perm_insertionSort itemLE (items0.map setVolume)).subset hit
      obtain ⟨y, hy, rfl⟩ := List.mem_map.mp hmem
      obtain ⟨d1, d2, d3⟩ := hdims y hy
      obtain ⟨f1, f2, f3⟩ := hfit y hy
      exact ⟨by rw [vol_setVolume]; exact vol_le_capacity d1 d2 d3 f1 f2 f3,
        by rw [weight_setVolume]; exact hwt y hy⟩
    intro c hc
    obtain ⟨b1, b2, e1, e2⟩ :=
      foldl_boundOK (L_c * W_c * H_c) W_max (sortItems (items0.map setVolume)) []
        hitems (by simp) c hc
    exact ⟨by rw [e1]; exact b1, by rw [e2]; exact b2⟩
  · rw [pack_items_of_unfit L_c W_c H_c W_max items0 hfil] at hres
    simp at hres

/-- Claim C1 witness: the amended theorem applied to the concrete run on
container 10 x 10 x 10, weight capacity 100, one item 2 x 3 x 4 of
weight 10. -/
theorem pack_items_capacity_witness :
    (∀ it ∈ [(⟨1,2,3,4,10,none⟩ : Item)], 0 ≤ it.length ∧ 0 ≤ it.width ∧ 0 ≤ it.height) ∧
    (∀ it ∈ [(⟨1,2,3,4,10,none⟩ : Item)], it.weight ≤ (100 : ℚ)) ∧
    ∀ c ∈ [(⟨1, [1], 24, 10, 1000, 100⟩ : Container)],
      c.current_volume ≤ c.volume_capacity ∧ c.current_weight ≤ c.weight_capacity := by
  refine ⟨?_, ?_, ?_⟩
  · intro it hit
    obtain rfl := List.mem_singleton.mp hit
    norm_num
  · intro it hit
    obtain rfl := List.mem_singleton.mp hit
    norm_num
  · refine pack_items_capacity 10 10 10 100 [⟨1,2,3,4,10,none⟩]
      [⟨1, [1], 24, 10, 1000, 100⟩] ?_ ?_ ?_
    · intro it hit
      obtain rfl := List.mem_singleton.mp hit
      norm_num
    · intro it hit
      obtain rfl := List.mem_singleton.mp hit
      norm_num
    · norm_num [pack_items, sortItems, List.insertionSort, List.orderedInsert, itemLE,
        Item.vol, setVolume, unfitB, addItem, tryPlace, pushItem, newContainer]

/-- Claim C2 counterexample: the claim is false as stated. On container
0 x 10 x 10 the volume capacity is 0 (hence at most 0), yet the item
0 x 1 x 1 passes the per-axis test, is not reported unfit, and a container
is produced holding it. -/
theorem pack_items_degenerate_counterexample :
    ((0 : ℚ) * 10 * 10 ≤ 0) ∧
    (pack_items 0 10 10 100 [⟨1,0,1,1,1,none⟩]).unfit_items = [] ∧
    (pack_items 0 10 10 100 [⟨1,0,1,1,1,none⟩]).containers =
      some [⟨1, [1], 0, 1, 0, 100⟩] := by
  norm_num [pack_items, sortItems, List.insertionSort, List.orderedInsert, itemLE,
    Item.vol, setVolume, unfitB, addItem, tryPlace, pushItem, newContainer]

/-- Claim C2 (amended): pack_items has no degenerate-capacity guard. Even
when the volume capacity is at most 0, an item is reported unfit exactly
when some per-axis dimension strictly exceeds the container's, and when no
item fails the per-axis test the (nonempty, for a nonempty batch) container
list is still produced instead of an all-unfit report. -/
theorem pack_items_degenerate (L_c W_c H_c W_max : ℚ) (items0 : List Item)
    (hcap : L_c * W_c * H_c ≤ 0) :
    (pack_items L_c W_c H_c W_max items0).unfit_items =
      (items0.filter (unfitB L_c W_c H_c)).map setVolume ∧
    (items0.filter (unfitB L_c W_c H_c) = [] →
      ∃ cs, (pack_items L_c W_c H_c W_max items0).containers = some cs ∧
        (items0 ≠ [] → cs ≠ [])) := by
  constructor
  · by_cases hfil : (items0.map setVolume).filter (unfitB L_c W_c H_c) = []
    · rw [pack_items_of_fit L_c W_c H_c W_max items0 hfil]
      rw [filter_unfit_map_setVolume] at hfil
      rw [hfil]
    · rw [pack_items_of_unfit L_c W_c H_c W_max items0 hfil]
      exact filter_unfit_map_setVolume L_c W_c H_c items0
  · intro hfil0
    have hfil : (items0.map setVolume).filter (unfitB L_c W_c H_c) = [] := by
      rw [filter_unfit_map_setVolume, hfil0]
      rfl
    rw [pack_items_of_fit L_c W_c H_c W_max items0 hfil]
    refine ⟨_, rfl, ?_⟩
    intro hne hcs
    obtain ⟨parts, hf, hp⟩ :=
      foldl_holds (L_c * W_c * H_c) W_max (sortItems (items0.map setVolume))
        List.Forall₂.nil
    rw [hcs] at hf
    obtain rfl := List.forall₂_nil_left_iff.mp hf
    have hsorted : sortItems (items0.map setVolume) = [] := hp.symm.eq_nil
    have hlen : items0.length = 0 := by
      have hlen2 := congrArg List.length hsorted
      simpa [sortItems, List.length_insertionSort] using hlen2
    exact hne (List.length_eq_zero.mp hlen)

/-- Claim C2 witness: the amended theorem applied to the degenerate
container 0 x 10 x 10 (volume capacity 0) with the single per-axis-fit item
0 x 2 x 2. -/
theorem pack_items_degenerate_witness :
    ((0 : ℚ) * 10 * 10 ≤ 0) ∧
    ((pack_items 0 10 10 100 [⟨2,0,2,2,1,none⟩]).unfit_items =
        (([⟨2,0,2,2,1,none⟩] : List Item).filter (unfitB 0 10 10)).map setVolume ∧
      (([⟨2,0,2,2,1,none⟩] : List Item).filter (unfitB 0 10 10) = [] →
        ∃ cs, (pack_items 0 10 10 100 [⟨2,0,2,2,1,none⟩]).containers = some cs ∧
          ([(⟨2,0,2,2,1,none⟩ : Item)] ≠ [] → cs ≠ []))) :=
  ⟨by norm_num, pack_items_degenerate 0 10 10 100 [⟨2,0,2,2,1,none⟩] (by norm_num)⟩

/-- Claim C3: if at least one item strictly exceeds a container dimension on
the fixed axis mapping, pack_items returns no containers (None) together
with exactly the items failing the per-axis test (the whole batch fails; the
fit items are not packed). -/
theorem pack_items_failfast (L_c W_c H_c W_max : ℚ) (items0 : List Item)
    (h : ∃ it ∈ items0, L_c < it.length ∨ W_c < it.width ∨ H_c < it.height) :
    (pack_items L_c W_c H_c W_max items0).containers = none ∧
    (pack_items L_c W_c H_c W_max items0).unfit_items =
      (items0.filter (unfitB L_c W_c H_c)).map setVolume := by
  obtain ⟨it, hit, hor⟩ := h
  have hfil : (items0.map setVolume).filter (unfitB L_c W_c H_c) ≠ [] := by
    intro hnil
    obtain ⟨f1, f2, f3⟩ := fit_of_filter_eq_nil hnil it hit
    rcases hor with h1 | h1 | h1
    exacts [absurd h1 (not_lt.mpr f1), absurd h1 (not_lt.mpr f2), absurd h1 (not_lt.mpr f3)]
  rw [pack_items_of_unfit L_c W_c H_c W_max items0 hfil]
  exact ⟨rfl, filter_unfit_map_setVolume L_c W_c H_c items0⟩

/-- Claim C3 witness: the fail-fast theorem applied to a batch holding the
unfit item 11 x 1 x 1 (length over the container's 10) next to a fit item. -/
theorem pack_items_failfast_witness :
    (∃ it ∈ [(⟨1,11,1,1,5,none⟩ : Item), ⟨2,1,1,1,5,none⟩],
      (10 : ℚ) < it.length ∨ (10 : ℚ) < it.width ∨ (10 : ℚ) < it.height) ∧
    ((pack_items 10 10 10 100 [⟨1,11,1,1,5,none⟩, ⟨2,1,1,1,5,none⟩]).containers = none ∧
      (pack_items 10 10 10 100 [⟨1,11,1,1,5,none⟩, ⟨2,1,1,1,5,none⟩]).unfit_items =
        (([⟨1,11,1,1,5,none⟩, ⟨2,1,1,1,5,none⟩] : List Item).filter
            (unfitB 10 10 10)).map setVolume) :=
  ⟨⟨⟨1,11,1,1,5,none⟩, List.mem_cons_self _ _, Or.inl (by norm_num)⟩,
    pack_items_failfast 10 10 10 100 [⟨1,11,1,1,5,none⟩, ⟨2,1,1,1,5,none⟩]
      ⟨⟨1,11,1,1,5,none⟩, List.mem_cons_self _ _, Or.inl (by norm_num)⟩⟩

/-- Claim C7 counterexample: the claim is false as stated. pack_items
mutates the caller-supplied item records in place: after the call the item
record carries the attached derived volume key, so the items passed in are
not unchanged. -/
theorem pack_items_mutation_counterexample :
    (pack_items 10 10 10 100 [⟨1,2,3,4,10,none⟩]).items_state =
      [⟨1,2,3,4,10,some 24⟩] ∧
    (pack_items 10 10 10 100 [⟨1,2,3,4,10,none⟩]).items_state ≠
      [⟨1,2,3,4,10,none⟩] := by
  have hstate : (pack_items 10 10 10 100 [⟨1,2,3,4,10,none⟩]).items_state =
      [⟨1,2,3,4,10,some 24⟩] := by
    norm_num [pack_items, sortItems, List.insertionSort, List.orderedInsert, itemLE,
      Item.vol, setVolume, unfitB, addItem, tryPlace, pushItem, newContainer]
  refine ⟨hstate, ?_⟩
  rw [hstate]
  simp

/-- The caller-relevant part of an item record: everything except the
derived volume key. -/
def stripVolume (item : Item) : Item :=
  { item with volume := none }

/-- Claim C7 (amended): pack_items never changes the identity, dimensions or
weight of a caller-supplied item record and holds no other state, but it
does mutate each item record in place by attaching the derived volume key
(on the failure path as well). -/
theorem pack_items_mutation (L_c W_c H_c W_max : ℚ) (items0 : List Item) :
    (pack_items L_c W_c H_c W_max items0).items_state.map stripVolume =
      items0.map stripVolume ∧
    ∀ it ∈ (pack_items L_c W_c H_c W_max items0).items_state,
      it.volume = some (it.length * it.width * it.height) := by
  have hstate : (pack_items L_c W_c H_c W_max items0).items_state =
      items0.map setVolume := by
    unfold pack_items
    split <;> rfl
  rw [hstate]
  constructor
  · rw [List.map_map]
    exact List.map_congr_left (fun a _ => rfl)
  · intro it hit
    obtain ⟨y, hy, rfl⟩ := List.mem_map.mp hit
    rfl

theorem unfitB_eq_false {L_c W_c H_c : ℚ} {it : Item} (f1 : it.length ≤ L_c)
    (f2 : it.width ≤ W_c) (f3 : it.height ≤ H_c) : unfitB L_c W_c H_c it = false := by
  simp [unfitB, not_lt, f1, f2, f3]

/-- Claim C4: when every item fits per-axis, pack_items performs exactly the
spec's first-fit-decreasing procedure: the items are processed in descending
derived volume, each is placed into the first open container (in creation
order) satisfying both inclusive capacity checks, and a fresh container is
appended when none qualifies. -/
theorem pack_items_first_fit (L_c W_c H_c W_max : ℚ) (items0 : List Item)
    (hfit : ∀ it ∈ items0, it.length ≤ L_c ∧ it.width ≤ W_c ∧ it.height ≤ H_c) :
    (pack_items L_c W_c H_c W_max items0).containers =
      some (packSpec L_c W_c H_c W_max items0) ∧
    (specSort items0).Pairwise (fun a b => specVolume b ≤ specVolume a) := by
  have hfil : (items0.map setVolume).filter (unfitB L_c W_c H_c) = [] := by
    apply List.filter_eq_nil_iff.mpr
    intro a ha
    obtain ⟨y, hy, rfl⟩ := List.mem_map.mp ha
    obtain ⟨f1, f2, f3⟩ := hfit y hy
    simp [@unfitB_eq_false L_c W_c H_c (setVolume y) f1 f2 f3]
  constructor
  · rw [pack_items_of_fit L_c W_c H_c W_max items0 hfil]
    show some ((sortItems (items0.map setVolume)).foldl
      (addItem (L_c * W_c * H_c) W_max) []) = _
    rw [sortItems_map_setVolume, foldl_addItem_eq_specStep]
    rfl
  · exact List.sorted_insertionSort specLE items0

/-- Claim C4 witness: the refinement theorem applied to the concrete batch
of three fit items on the 10 x 10 x 10 container. -/
theorem pack_items_first_fit_witness :
    (∀ it ∈ [(⟨1,2,3,4,10,none⟩ : Item), ⟨2,5,5,5,20,none⟩, ⟨3,3,3,3,15,none⟩],
      it.length ≤ (10 : ℚ) ∧ it.width ≤ (10 : ℚ) ∧ it.height ≤ (10 : ℚ)) ∧
    ((pack_items 10 10 10 100
        [⟨1,2,3,4,10,none⟩, ⟨2,5,5,5,20,none⟩, ⟨3,3,3,3,15,none⟩]).containers =
      some (packSpec 10 10 10 100
        [⟨1,2,3,4,10,none⟩, ⟨2,5,5,5,20,none⟩, ⟨3,3,3,3,15,none⟩]) ∧
    (specSort [⟨1,2,3,4,10,none⟩, ⟨2,5,5,5,20,none⟩, ⟨3,3,3,3,15,none⟩]).Pairwise
      (fun a b => specVolume b ≤ specVolume a)) := by
  have hfit : ∀ it ∈ [(⟨1,2,3,4,10,none⟩ : Item), ⟨2,5,5,5,20,none⟩, ⟨3,3,3,3,15,none⟩],
      it.length ≤ (10 : ℚ) ∧ it.width ≤ (10 : ℚ) ∧ it.height ≤ (10 : ℚ) := by
    intro it hit
    simp only [List.mem_cons, List.not_mem_nil, or_false] at hit
    rcases hit with rfl | rfl | rfl <;> norm_num
  exact ⟨hfit, pack_items_first_fit 10 10 10 100
    [⟨1,2,3,4,10,none⟩, ⟨2,5,5,5,20,none⟩, ⟨3,3,3,3,15,none⟩] hfit⟩

/-- Claim C5: the processing order of pack_items sorts the full item set by
descending derived volume with a stable tie-break: the sorted list is a
permutation of the input, its volume keys are non-increasing, and for every
volume value the items carrying exactly that volume appear in the same
relative order as in the input. -/
theorem sortItems_stable (items : List Item) :
    (sortItems items).Perm items ∧
    (sortItems items).Pairwise (fun a b => b.vol ≤ a.vol) ∧
    ∀ v : ℚ, (sortItems items).filter (fun it => decide (it.vol = v)) =
      items.filter (fun it => decide (it.vol = v)) := by
  refine ⟨List.perm_insertionSort itemLE items,
    List.sorted_insertionSort itemLE items, ?_⟩
  intro v
  have hall : ∀ a ∈ items.filter (fun it => decide (it.vol = v)), a.vol = v := by
    intro a ha
    exact of_decide_eq_true (List.mem_filter.mp ha).2
  have hpw : (items.filter (fun it => decide (it.vol = v))).Pairwise itemLE := by
    apply List.pairwise_of_forall_mem_list
    intro a ha b hb
    show b.vol ≤ a.vol
    rw [hall a ha, hall b hb]
  have hsub : (items.filter (fun it => decide (it.vol = v))).Sublist (sortItems items) :=
    List.sublist_insertionSort hpw (List.filter_sublist items)
  have h1 : (items.filter (fun it => decide (it.vol = v))).Sublist
      ((sortItems items).filter (fun it => decide (it.vol = v))) := by
    have h2 := hsub.filter (fun it => decide (it.vol = v))
    rwa [List.filter_eq_self.mpr (fun a ha => decide_eq_true (hall a ha))] at h2
  have hlen : ((sortItems items).filter (fun it => decide (it.vol = v))).length =
      (items.filter (fun it => decide (it.vol = v))).length :=
    ((List.perm_insertionSort itemLE items).filter
      (fun it => decide (it.vol = v))).length_eq
  exact (h1.eq_of_length hlen.symm).symm

/-- Claim C6: whenever pack_items returns an empty unfit list, the multiset
union of the returned containers' item-id lists is exactly the multiset of
submitted item ids (no omissions, no duplications beyond the input's), and
under unique caller ids every id therefore appears in exactly one
container. -/
theorem pack_items_complete (L_c W_c H_c W_max : ℚ) (items0 : List Item)
    (hunfit : (pack_items L_c W_c H_c W_max items0).unfit_items = []) :
    ∃ cs, (pack_items L_c W_c H_c W_max items0).containers = some cs ∧
      ((cs.map Container.items).flatten).Perm (items0.map Item.id) ∧
      ((items0.map Item.id).Nodup → ((cs.map Container.items).flatten).Nodup) := by
  by_cases hfil : (items0.map setVolume).filter (unfitB L_c W_c H_c) = []
  · have hres : (pack_items L_c W_c H_c W_max items0).containers =
        some ((sortItems (items0.map setVolume)).foldl
          (addItem (L_c * W_c * H_c) W_max) []) := by
      rw [pack_items_of_fit L_c W_c H_c W_max items0 hfil]
    obtain ⟨parts, hf, hp⟩ := pack_items_holds hres
    have hperm : (((sortItems (items0.map setVolume)).foldl
        (addItem (L_c * W_c * H_c) W_max) []).map Container.items).flatten.Perm
          (items0.map Item.id) := by
      rw [forall₂_map_items hf, ← List.map_flatten]
      have h2 := hp.map Item.id
      rw [List.map_map] at h2
      have h3 : items0.map (Item.id ∘ setVolume) = items0.map Item.id :=
        List.map_congr_left (fun a _ => rfl)
      rwa [h3] at h2
    exact ⟨_, hres, hperm, fun hnd => hperm.nodup_iff.mpr hnd⟩
  · rw [pack_items_of_unfit L_c W_c H_c W_max items0 hfil] at hunfit
    exact absurd hunfit hfil

/-- Claim C6 witness: the completeness theorem applied to the concrete
three-item batch of the worked example. -/
theorem pack_items_complete_witness :
    (pack_items 10 10 10 100
      [⟨1,2,3,4,10,none⟩, ⟨2,5,5,5,20,none⟩, ⟨3,3,3,3,15,none⟩]).unfit_items = [] ∧
    ∃ cs, (pack_items 10 10 10 100
        [⟨1,2,3,4,10,none⟩, ⟨2,5,5,5,20,none⟩, ⟨3,3,3,3,15,none⟩]).containers = some cs ∧
      ((cs.map Container.items).flatten).Perm
        ([(⟨1,2,3,4,10,none⟩ : Item), ⟨2,5,5,5,20,none⟩, ⟨3,3,3,3,15,none⟩].map Item.id) ∧
      (([(⟨1,2,3,4,10,none⟩ : Item), ⟨2,5,5,5,20,none⟩, ⟨3,3,3,3,15,none⟩].map
          Item.id).Nodup →
        ((cs.map Container.items).flatten).Nodup) := by
  have hunfit : (pack_items 10 10 10 100
      [⟨1,2,3,4,10,none⟩, ⟨2,5,5,5,20,none⟩, ⟨3,3,3,3,15,none⟩]).unfit_items = [] := by
    norm_num [pack_items, sortItems, List.insertionSort, List.orderedInsert, itemLE,
      Item.vol, setVolume, unfitB, addItem, tryPlace, pushItem, newContainer]
  exact ⟨hunfit, pack_items_complete 10 10 10 100
    [⟨1,2,3,4,10,none⟩, ⟨2,5,5,5,20,none⟩, ⟨3,3,3,3,15,none⟩] hunfit⟩

/-- Claim C9: for every returned container list the ids form the contiguous
sequence 1, 2, ..., k in the order the containers were opened (which is the
order of the returned list). -/
theorem pack_items_ids (L_c W_c H_c W_max : ℚ) (items0 : List Item) (cs : List Container)
    (hres : (pack_items L_c W_c H_c W_max items0).containers = some cs) :
    cs.map Container.id = List.range' 1 cs.length := by
  by_cases hfil : (items0.map setVolume).filter (unfitB L_c W_c H_c) = []
  · rw [pack_items_of_fit L_c W_c H_c W_max items0 hfil] at hres
    obtain rfl := Option.some.inj hres
    exact foldl_ids (L_c * W_c * H_c) W_max (sortItems (items0.map setVolume)) [] rfl
  · rw [pack_items_of_unfit L_c W_c H_c W_max items0 hfil] at hres
    simp at hres

/-- Claim C9 witness: the id theorem applied to a two-item run that opens
two containers (each item consumes more than half the volume). -/
theorem pack_items_ids_witness :
    ([(⟨1, [1], 600, 10, 1000, 100⟩ : Container), ⟨2, [2], 600, 10, 1000, 100⟩].map
        Container.id =
      List.range' 1 [(⟨1, [1], 600, 10, 1000, 100⟩ : Container),
        ⟨2, [2], 600, 10, 1000, 100⟩].length) :=
  pack_items_ids 10 10 10 100 [⟨1,10,10,6,10,none⟩, ⟨2,10,10,6,10,none⟩]
    [⟨1, [1], 600, 10, 1000, 100⟩, ⟨2, [2], 600, 10, 1000, 100⟩]
    (by norm_num [pack_items, sortItems, List.insertionSort, List.orderedInsert, itemLE,
      Item.vol, setVolume, unfitB, addItem, tryPlace, pushItem, newContainer])

/-- Claim C10: every container in a returned list holds at least one item
id, and its recorded running volume and running weight are exactly the sums
of the derived volumes and of the weights of the items assigned to it. -/
theorem pack_items_contents (L_c W_c H_c W_max : ℚ) (items0 : List Item)
    (cs : List Container)
    (hres : (pack_items L_c W_c H_c W_max items0).containers = some cs) :
    ∀ c ∈ cs, c.items ≠ [] ∧
      ∃ assigned : List Item, assigned.Subperm (items0.map setVolume) ∧
        c.items = assigned.map Item.id ∧
        c.current_volume = (assigned.map specVolume).sum ∧
        c.current_weight = (assigned.map Item.weight).sum := by
  obtain ⟨parts, hf, hp⟩ := pack_items_holds hres
  intro c hc
  obtain ⟨p, hpmem, h1, h2, h3, h4⟩ := forall₂_mem_left hf hc
  have hsub : p.Sublist parts.flatten := sublist_flatten_of_mem hpmem
  have hsp : p.Subperm (items0.map setVolume) := hsub.subperm.trans hp.subperm
  have hvol : p.map Item.vol = p.map specVolume := by
    apply List.map_congr_left
    intro x hx
    obtain ⟨y, hy, rfl⟩ := List.mem_map.mp (hsp.subset hx)
    rfl
  refine ⟨?_, p, hsp, h1, by rw [h2, hvol], h3⟩
  rw [h1]
  exact fun hmap => h4 (List.map_eq_nil_iff.mp hmap)

/-- Claim C10 witness: the contents theorem applied to the single-item run
on the 10 x 10 x 10 container. -/
theorem pack_items_contents_witness :
    (⟨1, [1], 24, 10, 1000, 100⟩ : Container).items ≠ [] ∧
      ∃ assigned : List Item,
        assigned.Subperm ([(⟨1,2,3,4,10,none⟩ : Item)].map setVolume) ∧
        (⟨1, [1], 24, 10, 1000, 100⟩ : Container).items = assigned.map Item.id ∧
        (⟨1, [1], 24, 10, 1000, 100⟩ : Container).current_volume =
          (assigned.map specVolume).sum ∧
        (⟨1, [1], 24, 10, 1000, 100⟩ : Container).current_weight =
          (assigned.map Item.weight).sum :=
  pack_items_contents 10 10 10 100 [⟨1,2,3,4,10,none⟩] [⟨1, [1], 24, 10, 1000, 100⟩]
    (by norm_num [pack_items, sortItems, List.insertionSort, List.orderedInsert, itemLE,
      Item.vol, setVolume, unfitB, addItem, tryPlace, pushItem, newContainer])
    (⟨1, [1], 24, 10, 1000, 100⟩ : Container) (List.mem_singleton_self _)
